import Mathlib

/-!
Verification of the BriefKit PRD generator's deterministic core.

The JavaScript/TypeScript sources (src/lib/prd.js, src/lib/openai.js,
src/cli/index.js, src/app/api/generate/route.ts,
src/components/InterviewClient.tsx) are shallowly embedded below.
Strings are modelled as Lean `String` (or `List Char` where index
arithmetic matters), JS `undefined`/missing values as `Option`, thrown
errors as `Except String`, and the external OpenAI calls and
`JSON.parse` as oracle parameters.
-/

set_option autoImplicit false

namespace BriefKit

/-- JS `Array.prototype.join(sep)`: empty array joins to the empty
string, otherwise elements interleaved with the separator. -/
def joinSep (sep : String) : List String → String
  | [] => ""
  | [a] => a
  | a :: b :: rest => a ++ sep ++ joinSep sep (b :: rest)

/-- Index of the first element satisfying `p`, as in JS
`String.prototype.indexOf` (the absent case `-1` is modelled as
`none`). -/
def findFirstIdx (p : Char → Bool) : List Char → Option Nat
  | [] => none
  | c :: cs => if p c then some 0 else (findFirstIdx p cs).map (· + 1)

/-- Index of the last element satisfying `p`, as in JS
`String.prototype.lastIndexOf` (`-1` modelled as `none`). -/
def findLastIdx (p : Char → Bool) : List Char → Option Nat
  | [] => none
  | c :: cs =>
    match findLastIdx p cs with
    | some k => some (k + 1)
    | none => if p c then some 0 else none

/-- `extractJson` from src/lib/prd.js.  The text is a list of
characters; `parse` is the `JSON.parse` oracle (returning `Except` to
model a thrown `SyntaxError`).  JS `text.slice(first, last + 1)` is
`(text.drop first).take (last + 1 - first)`; the `-1` results of
`indexOf`/`lastIndexOf` are the `none` branches. -/
def extractJson {J : Type} (parse : List Char → Except String J)
    (text : List Char) : Except String J :=
  if text = [] then Except.error "No text to parse as JSON"
  else
    match findFirstIdx (· = '\x7b') text, findLastIdx (· = '\x7d') text with
    | some first, some last =>
      if last ≤ first then Except.error "No JSON object found in response"
      else parse ((text.drop first).take (last + 1 - first))
    | _, _ => Except.error "No JSON object found in response"

/-- The brace condition of the source's guard, as a Boolean on the
source-side indices: a first `{` exists, a last `}` exists, and the
former is strictly before the latter. -/
def braceGuard (text : List Char) : Bool :=
  match findFirstIdx (· = '\x7b') text, findLastIdx (· = '\x7d') text with
  | some first, some last => first < last
  | _, _ => false

/-- The inclusive slice from the first `{` to the last `}` handed to
`JSON.parse` in the success case. -/
def jsonSlice (text : List Char) : List Char :=
  match findFirstIdx (· = '\x7b') text, findLastIdx (· = '\x7d') text with
  | some first, some last => (text.drop first).take (last + 1 - first)
  | _, _ => []

/-- One interview question/answer exchange (src data model). -/
structure InterviewTurn where
  question : String
  answer : String
deriving DecidableEq

/-- A model-produced feature; the user-edited override record in
src/app/api/generate/route.ts has the same three fields, so the same
type models both.  A JS-absent `name`/`summary` is the empty string and
an absent `userStoryIds` the empty list (both falsy/non-arrays behave
identically in the source's checks). -/
structure Feature where
  name : String
  summary : String
  userStoryIds : List String
deriving DecidableEq

/-- A user story; `acceptanceCriteria` is `none` when the field is
missing (JS `undefined`). -/
structure UserStory where
  id : String
  title : String
  description : String
  acceptanceCriteria : Option (List String)
deriving DecidableEq

/-- The `Q{n}/A{n}` block built for turn at 0-based index `i` in
`buildClarifyingAnswers` (src/cli/index.js and
src/app/api/generate/route.ts). -/
def qaBlock (i : Nat) (t : InterviewTurn) : String :=
  "Q" ++ toString (i + 1) ++ ": " ++ t.question ++ "\nA" ++
    toString (i + 1) ++ ": " ++ t.answer

/-- The `summaryBlock` expression of `buildClarifyingAnswers`:
`Array.isArray(summary) && summary.length > 0` is `summary = some l`
with `l ≠ []`. -/
def summaryBlock (summary : Option (List String)) : String :=
  match summary with
  | some l =>
    if l = [] then ""
    else "Summary:\n" ++ joinSep "\n" (l.map (fun item => "- " ++ item))
  | none => ""

/-- `buildClarifyingAnswers` from src/cli/index.js (three-argument CLI
version): JS `filter(Boolean)` on strings drops exactly the empty
string. -/
def buildClarifyingAnswers (brief : String) (interview : List InterviewTurn)
    (summary : Option (List String)) : String :=
  joinSep "\n\n"
    (((("Brief: " ++ brief) :: interview.enum.map (fun p => qaBlock p.1 p.2)) ++
        [summaryBlock summary]).filter (fun s => s ≠ ""))

/-- Drop leading whitespace characters. -/
def trimLeftChars : List Char → List Char
  | [] => []
  | c :: cs => if c.isWhitespace then trimLeftChars cs else c :: cs

/-- JS `String.prototype.trim`: strip whitespace from both ends
(modelled over the ASCII whitespace class of `Char.isWhitespace`). -/
def jsTrim (s : String) : String :=
  String.mk ((trimLeftChars ((trimLeftChars s.data).reverse)).reverse)

/-- `formatFeedback` from src/cli/index.js (identical in
src/app/api/generate/route.ts): non-arrays are `none`; every element is
a string in this model, so the `typeof item === "string"` filter is the
identity. -/
def formatFeedback (feedback : Option (List String)) : String :=
  match feedback with
  | none => ""
  | some fb =>
    let items := (fb.map jsTrim).filter (fun s => s ≠ "")
    if items = [] then ""
    else "Feedback:\n" ++ joinSep "\n" (items.map (fun item => "- " ++ item))

/-- `buildClarifyingAnswersWithFeedback` from src/cli/index.js. -/
def buildClarifyingAnswersWithFeedback (brief : String)
    (interview : List InterviewTurn) (summary : Option (List String))
    (feedback : Option (List String)) : String :=
  joinSep "\n\n"
    ([buildClarifyingAnswers brief interview summary,
      formatFeedback feedback].filter (fun s => s ≠ ""))

/-- The four-argument `buildClarifyingAnswers` of
src/app/api/generate/route.ts, which splices the feedback block into
the same filtered array instead of appending it afterwards. -/
def buildClarifyingAnswersRoute (brief : String)
    (interview : List InterviewTurn) (summary : Option (List String))
    (feedback : Option (List String)) : String :=
  joinSep "\n\n"
    (((("Brief: " ++ brief) :: interview.enum.map (fun p => qaBlock p.1 p.2)) ++
        [summaryBlock summary, formatFeedback feedback]).filter (fun s => s ≠ ""))

/-- Insert one keyed entry into a key-ascending list (used to model JS
object key enumeration). -/
def insertByKey {α : Type} (p : Nat × α) : List (Nat × α) → List (Nat × α)
  | [] => [p]
  | q :: qs => if p.1 ≤ q.1 then p :: q :: qs else q :: insertByKey p qs

/-- Sort an association list by ascending numeric key.  ECMAScript
enumerates integer-index object keys in ascending numeric order
(`OrdinaryOwnPropertyKeys`), regardless of insertion order, so
`Object.entries` over the index-keyed feature-feedback object yields
this order.  Keys are unique because the source only ever updates
`obj[k]` in place. -/
def sortByKey {α : Type} : List (Nat × α) → List (Nat × α)
  | [] => []
  | p :: ps => insertByKey p (sortByKey ps)

/-- Digit-string value (used for the array-index key test). -/
def digitsToNat (cs : List Char) : Nat :=
  cs.foldl (fun acc c => acc * 10 + (c.toNat - '0'.toNat)) 0

/-- Whether a JS property key is an array index: the canonical decimal
form of an integer below 2^32 - 1 (no leading zero except "0").  Such
keys are enumerated first, in ascending numeric order. -/
def isArrayIndexKey (s : String) : Option Nat :=
  match s.data with
  | [] => none
  | c :: cs =>
    if (c :: cs).all Char.isDigit then
      if c = '0' ∧ cs ≠ [] then none
      else if digitsToNat (c :: cs) < 4294967295 then some (digitsToNat (c :: cs))
      else none
    else none

/-- `Object.entries` enumeration order for a string-keyed JS object
built by in-place updates: array-index keys first in ascending numeric
order, then the remaining keys in insertion order. -/
def jsEntries {α : Type} (m : List (String × α)) : List (String × α) :=
  (sortByKey (m.filterMap
      (fun kv => (isArrayIndexKey kv.1).map (fun n => (n, kv))))).map Prod.snd ++
    m.filter (fun kv => (isArrayIndexKey kv.1).isNone)

/-- The feature label of `buildFeedback` (src/cli/index.js):
`feature?.name` is truthy exactly when the index resolves and the name
is non-empty. -/
def featureLabel (features : List Feature) (idx : Nat) : String :=
  match features.get? idx with
  | some f =>
    if f.name = "" then "Feature " ++ toString (idx + 1)
    else "Feature \"" ++ f.name ++ "\""
  | none => "Feature " ++ toString (idx + 1)

/-- The story label of `buildFeedback`: the lookup object is built by
`reduce` with `acc[story.id] = story`, so the last story with a given
id wins. -/
def storyLabel (stories : List UserStory) (sid : String) : String :=
  match stories.reverse.find? (fun st => st.id = sid) with
  | some st => "Story " ++ st.id ++ ": " ++ st.title
  | none => "Story " ++ sid

/-- `buildFeedback` from src/cli/index.js.  The two feedback maps are
JS objects; the feature map's keys are the numeric feature indices
(hence enumerated ascending by `sortByKey`), the story map's keys are
story-id strings (hence enumerated by `jsEntries`).  Messages are
trimmed and whitespace-only messages are skipped (`if (trimmed)`). -/
def buildFeedback (featureMessages : List (Nat × List String))
    (storyMessages : List (String × List String))
    (features : List Feature) (stories : List UserStory) : List String :=
  (sortByKey featureMessages).flatMap (fun p =>
    p.2.filterMap (fun message =>
      let trimmed := jsTrim message
      if trimmed = "" then none
      else some (featureLabel features p.1 ++ ": " ++ trimmed))) ++
  (jsEntries storyMessages).flatMap (fun p =>
    p.2.filterMap (fun message =>
      let trimmed := jsTrim message
      if trimmed = "" then none
      else some (storyLabel stories p.1 ++ ": " ++ trimmed)))

/-- Modelled from the claim's words for comparison with the source's
`buildFeedback`: all feature-message entries first, iterated by map
insertion order, each message rendered verbatim as its own
`<label>: <message>` line, then all story-message entries likewise. -/
def buildFeedbackClaim (featureMessages : List (Nat × List String))
    (storyMessages : List (String × List String))
    (features : List Feature) (stories : List UserStory) : List String :=
  featureMessages.flatMap (fun p =>
    p.2.map (fun message => featureLabel features p.1 ++ ": " ++ message)) ++
  storyMessages.flatMap (fun p =>
    p.2.map (fun message => storyLabel stories p.1 ++ ": " ++ message))

/-- The per-entry feature lines of the amended feedback claim: trimmed
messages, whitespace-only ones skipped. -/
def featureEntryLines (features : List Feature) (p : Nat × List String) :
    List String :=
  ((p.2.map jsTrim).filter (fun s => s ≠ "")).map
    (fun m => featureLabel features p.1 ++ ": " ++ m)

/-- The per-entry story lines of the amended feedback claim. -/
def storyEntryLines (stories : List UserStory) (p : String × List String) :
    List String :=
  ((p.2.map jsTrim).filter (fun s => s ≠ "")).map
    (fun m => storyLabel stories p.1 ++ ": " ++ m)

/-- `ensureList` from src/lib/prd.js: a missing (`undefined`) or empty
list is replaced by the fallback. -/
def ensureList {α : Type} (value : Option (List α)) (fallback : List α) :
    List α :=
  match value with
  | some [] => fallback
  | some (x :: xs) => x :: xs
  | none => fallback

/-- One exported story record of `buildPrdJson`. -/
structure PrdStoryJson where
  id : String
  title : String
  description : String
  acceptanceCriteria : List String
  priority : Nat
  passes : Bool
  notes : String
deriving DecidableEq

/-- The `prd.json` document shape. -/
structure PrdJson where
  project : String
  branchName : String
  description : String
  userStories : List PrdStoryJson
deriving DecidableEq

/-- `buildPrdJson` from src/lib/prd.js: `Array.isArray(userStories)`
failing (missing input) yields the empty story list. -/
def buildPrdJson (project branchName description : String)
    (userStories : Option (List UserStory)) : PrdJson :=
  { project := project, branchName := branchName, description := description,
    userStories := (userStories.getD []).enum.map (fun p =>
      { id := p.2.id, title := p.2.title, description := p.2.description,
        acceptanceCriteria := ensureList p.2.acceptanceCriteria ["TBD"],
        priority := p.1 + 1, passes := false, notes := "" }) }

/-- Input record of `buildPrdMarkdown`; each optional list field is
`none` when missing, and a missing `introduction` is the falsy empty
string (`introduction || "TBD"`). -/
structure PrdInput where
  featureName : String
  introduction : String
  goals : Option (List String)
  userStories : Option (List UserStory)
  functionalRequirements : Option (List String)
  nonGoals : Option (List String)
  designConsiderations : Option (List String)
  technicalConsiderations : Option (List String)
  successMetrics : Option (List String)
  openQuestions : Option (List String)
deriving DecidableEq

/-- One `### id: title` story block of the markdown renderer. -/
def storyBlock (story : UserStory) : String :=
  joinSep "\n"
    ["### " ++ story.id ++ ": " ++ story.title,
     "**Description:** " ++ story.description,
     "",
     "**Acceptance Criteria:**",
     joinSep "\n" ((ensureList story.acceptanceCriteria ["TBD"]).map
       (fun item => "- [ ] " ++ item))]

/-- After at least one digit: accept a `:` ending the `FR-\d+:` prefix,
keep scanning digits otherwise. -/
def frColonAfterDigits : List Char → Bool
  | [] => false
  | c :: cs => if c = ':' then true else c.isDigit && frColonAfterDigits cs

/-- At least one digit followed by `:`. -/
def frDigitsColon : List Char → Bool
  | [] => false
  | c :: cs => c.isDigit && frColonAfterDigits cs

/-- The test `/^FR-\d+:/i.test(item)` of the markdown renderer:
case-insensitive `FR-`, one or more digits, then `:`. -/
def frPrefixTest (s : String) : Bool :=
  match s.data with
  | c1 :: c2 :: c3 :: rest =>
    (c1 = 'F' || c1 = 'f') && (c2 = 'R' || c2 = 'r') && (c3 = '-') &&
      frDigitsColon rest
  | _ => false

/-- The functional-requirement numbering map of `buildPrdMarkdown`:
item at 0-based index `i` gets `FR-{i+1}: ` prefixed unless it already
matches `/^FR-\d+:/i`. -/
def numberedFunctionalItems (items : List String) : List String :=
  items.enum.map (fun p =>
    if frPrefixTest p.2 then p.2
    else "FR-" ++ toString (p.1 + 1) ++ ": " ++ p.2)

/-- The array that `buildPrdMarkdown` (src/lib/prd.js) joins with
`"\n"`; splitting the source's final `[...].join("\n")` into the array
and the join keeps the translation one-to-one. -/
def buildPrdMarkdownParts (p : PrdInput) : List String :=
  let storyBlocks := joinSep "\n\n" ((ensureList p.userStories []).map storyBlock)
  ["# PRD: " ++ p.featureName,
   "",
   "## Introduction/Overview",
   if p.introduction = "" then "TBD" else p.introduction,
   "",
   "## Goals",
   joinSep "\n" ((ensureList p.goals ["TBD"]).map (fun item => "- " ++ item)),
   "",
   "## User Stories",
   if storyBlocks = "" then "TBD" else storyBlocks,
   "",
   "## Functional Requirements",
   joinSep "\n" ((numberedFunctionalItems
     (ensureList p.functionalRequirements ["TBD"])).map (fun item => "- " ++ item)),
   "",
   "## Non-Goals (Out of Scope)",
   joinSep "\n" ((ensureList p.nonGoals ["TBD"]).map (fun item => "- " ++ item)),
   "",
   "## Design Considerations (Optional)",
   joinSep "\n" ((ensureList p.designConsiderations ["TBD"]).map
     (fun item => "- " ++ item)),
   "",
   "## Technical Considerations (Optional)",
   joinSep "\n" ((ensureList p.technicalConsiderations ["TBD"]).map
     (fun item => "- " ++ item)),
   "",
   "## Success Metrics",
   joinSep "\n" ((ensureList p.successMetrics ["TBD"]).map
     (fun item => "- " ++ item)),
   "",
   "## Open Questions",
   joinSep "\n" ((ensureList p.openQuestions ["TBD"]).map
     (fun item => "- " ++ item)),
   ""]

/-- `buildPrdMarkdown` from src/lib/prd.js. -/
def buildPrdMarkdown (p : PrdInput) : String :=
  joinSep "\n" (buildPrdMarkdownParts p)

/-- The per-index override application of `applyFeatureOverrides`
(src/app/api/generate/route.ts): `name`/`summary` replace when
non-empty (JS `||`), `userStoryIds` when a non-empty array. -/
def overrideFeature (f o : Feature) : Feature :=
  { name := if o.name = "" then f.name else o.name,
    summary := if o.summary = "" then f.summary else o.summary,
    userStoryIds := if o.userStoryIds = [] then f.userStoryIds
      else o.userStoryIds }

/-- `applyFeatureOverrides` from src/app/api/generate/route.ts.  A
missing `overrides` array or a sparse slot (`!override`) is `none`. -/
def applyFeatureOverrides (features : Option (List Feature))
    (overrides : Option (List (Option Feature))) : Option (List Feature) :=
  match overrides with
  | none => features
  | some ovs =>
    if ovs = [] then features
    else some ((features.getD []).enum.map (fun p =>
      match ovs.get? p.1 with
      | some (some o) => overrideFeature p.2 o
      | _ => p.2))

/-- Modelled from the claim's words for comparison with the source's
`applyFeatureOverrides`: walk the original features and the overrides
positionally; an index without an override passes through; overrides
beyond the original list have no target. -/
def mergeFeaturesSpec : List Feature → List (Option Feature) → List Feature
  | [], _ => []
  | f :: fs, [] => f :: mergeFeaturesSpec fs []
  | f :: fs, some o :: os => overrideFeature f o :: mergeFeaturesSpec fs os
  | f :: fs, none :: os => f :: mergeFeaturesSpec fs os

/-- One attempt of `generateJsonResponse` (src/lib/openai.js): `call`
is the outbound `client.chat.completions.create` oracle, its argument
the strict-JSON flag (`response_format: \x7b type: "json_object" \x7d`
present or not), its payload the possibly-absent message content
(`response.choices?.[0]?.message?.content || ""`), and the raw text
then goes through `extractJson`. -/
def gatewayAttempt {J : Type} (call : Bool → Except String (Option (List Char)))
    (parse : List Char → Except String J) (strict : Bool) : Except String J :=
  match call strict with
  | Except.error e => Except.error e
  | Except.ok content => extractJson parse (content.getD [])

/-- `generateJsonResponse` from src/lib/openai.js, instrumented with
the list of outbound requests made (their strict-JSON flags): the
`try` block is the strict attempt; any failure in it (call or
decoding) runs the single non-strict fallback in `catch`, whose own
failure propagates. -/
def generateJsonResponse {J : Type}
    (call : Bool → Except String (Option (List Char)))
    (parse : List Char → Except String J) : Except String J × List Bool :=
  match gatewayAttempt call parse true with
  | Except.ok v => (Except.ok v, [true])
  | Except.error _ => (gatewayAttempt call parse false, [true, false])

/-- The web client's session-local state
(src/components/InterviewClient.tsx `useState` fields touched by the
interview flow; the transient loading/recording flags are irrelevant to
the restart claim and the generation result's contents are abstracted
to `Unit`). -/
structure WebSessionState where
  brief : String
  interviewStarted : Bool
  currentQuestion : Option String
  interviewHistory : List InterviewTurn
  interviewSummary : Option (List String)
  answerDraft : String
  previewFeatures : List Feature
  previewStories : List UserStory
  featureMessageDrafts : List (Nat × String)
  featureMessages : List (Nat × List String)
  storyMessageDrafts : List (String × String)
  storyMessages : List (String × List String)
  interviewDone : Bool
  result : Option Unit
  error : Option String
deriving DecidableEq

/-- `handleRestartInterview` from src/components/InterviewClient.tsx
(lines 326-338): exactly the eleven `set*` calls of the handler. -/
def handleRestartInterview (s : WebSessionState) : WebSessionState :=
  { s with
    error := none,
    result := none,
    interviewStarted := false,
    interviewHistory := [],
    interviewSummary := none,
    interviewDone := false,
    currentQuestion := none,
    featureMessageDrafts := [],
    featureMessages := [],
    storyMessageDrafts := [],
    storyMessages := [] }

/-- The CLI interview session locals of `runInterview`
(src/cli/index.js). -/
structure CliInterviewState where
  history : List InterviewTurn
  done : Bool
  summary : Option (List String)
  featureMessages : List (Nat × List String)
  storyMessages : List (String × List String)
  previewFeatures : List Feature
  previewStories : List UserStory
deriving DecidableEq

/-- The fresh locals at entry to `runInterview`. -/
def cliRunInterviewInit : CliInterviewState :=
  { history := [], done := false, summary := none, featureMessages := [],
    storyMessages := [], previewFeatures := [], previewStories := [] }

/-- The CLI restart: `runInterview` returns `{restart: true}` and
`main`'s `while (interviewResult?.restart)` loop re-invokes
`runInterview`, whose locals are all freshly initialized, discarding
the previous session state entirely. -/
def cliRestart (_ : CliInterviewState) : CliInterviewState :=
  cliRunInterviewInit

theorem findFirstIdx_spec (p : Char → Bool) (cs : List Char) (n : Nat) :
    findFirstIdx p cs = some n ↔
      ∃ c, cs.get? n = some c ∧ p c = true ∧
        ∀ i, i < n → ∀ c', cs.get? i = some c' → p c' = false := by
  induction cs generalizing n with
  | nil => simp [findFirstIdx]
  | cons c cs ih =>
    by_cases hc : p c = true
    · simp only [findFirstIdx, hc, if_pos rfl]
      constructor
      · rintro h
        cases h
        exact ⟨c, rfl, hc, fun i hi _ _ => absurd hi (Nat.not_lt_zero i)⟩
      · rintro ⟨c', hget, hp, hmin⟩
        cases n with
        | zero => rfl
        | succ n =>
          have := hmin 0 (Nat.succ_pos n) c rfl
          rw [hc] at this
          exact absurd this (by simp)
    · have hc' : p c = false := by
        cases h : p c
        · rfl
        · exact absurd h hc
      simp only [findFirstIdx]
      rw [if_neg (by simp [hc'])]
      constructor
      · intro h
        rcases Option.map_eq_some'.mp h with ⟨m, hm, hmn⟩
        rcases (ih m).mp hm with ⟨d, hget, hp, hmin⟩
        refine ⟨d, ?_, hp, ?_⟩
        · rw [← hmn]; simpa using hget
        · intro i hi c' hget'
          cases i with
          | zero =>
            cases hget'
            exact hc'
          | succ i =>
            apply hmin i
            · omega
            · simpa using hget'
      · rintro ⟨d, hget, hp, hmin⟩
        cases n with
        | zero =>
          cases hget
          rw [hp] at hc'
          exact absurd hc' (by simp)
        | succ n =>
          have hm : findFirstIdx p cs = some n := by
            apply (ih n).mpr
            refine ⟨d, by simpa using hget, hp, ?_⟩
            intro i hi c' hget'
            exact hmin (i + 1) (by omega) c' (by simpa using hget')
          rw [hm]
          rfl

theorem findLastIdx_eq_none (p : Char → Bool) (cs : List Char) :
    findLastIdx p cs = none ↔ ∀ c ∈ cs, p c = false := by
  induction cs with
  | nil => simp [findLastIdx]
  | cons c cs ih =>
    simp only [findLastIdx]
    cases hrec : findLastIdx p cs with
    | some k =>
      simp only [List.mem_cons]
      constructor
      · intro h
        exact absurd h (by simp)
      · intro hall
        exfalso
        have : findLastIdx p cs = none := by
          apply ih.mpr
          intro d hd
          exact hall d (Or.inr hd)
        rw [hrec] at this
        exact absurd this (by simp)
    | none =>
      by_cases hc : p c = true
      · rw [if_pos hc]
        simp only [List.mem_cons]
        constructor
        · intro h
          exact absurd h (by simp)
        · intro hall
          rw [hall c (Or.inl rfl)] at hc
          exact absurd hc (by simp)
      · have hc' : p c = false := by
          cases h : p c
          · rfl
          · exact absurd h hc
        rw [if_neg hc]
        simp only [List.mem_cons]
        constructor
        · intro _ d hd
          rcases hd with h | h
          · rw [h]; exact hc'
          · exact ih.mp hrec d h
        · intro _
          trivial

theorem findLastIdx_spec (p : Char → Bool) (cs : List Char) (n : Nat) :
    findLastIdx p cs = some n ↔
      ∃ c, cs.get? n = some c ∧ p c = true ∧
        ∀ i, n < i → ∀ c', cs.get? i = some c' → p c' = false := by
  induction cs generalizing n with
  | nil => simp [findLastIdx]
  | cons c cs ih =>
    simp only [findLastIdx]
    cases hrec : findLastIdx p cs with
    | some k =>
      rcases (ih k).mp hrec with ⟨d, hget, hp, hmax⟩
      constructor
      · intro h
        cases h
        refine ⟨d, by simpa using hget, hp, ?_⟩
        intro i hi c' hget'
        cases i with
        | zero => omega
        | succ i => exact hmax i (by omega) c' (by simpa using hget')
      · rintro ⟨d', hget', hp', hmax'⟩
        cases n with
        | zero =>
          cases hget'
          have := hmax' (k + 1) (Nat.succ_pos k) d (by simpa using hget)
          rw [hp] at this
          exact absurd this (by simp)
        | succ n =>
          have : findLastIdx p cs = some n := by
            apply (ih n).mpr
            refine ⟨d', by simpa using hget', hp', ?_⟩
            intro i hi c' hget'
            exact hmax' (i + 1) (by omega) c' (by simpa using hget')
          rw [hrec] at this
          cases this
          rfl
    | none =>
      constructor
      · intro h
        by_cases hc : p c = true
        · rw [if_pos hc] at h
          cases h
          refine ⟨c, rfl, hc, ?_⟩
          intro i hi c' hget'
          cases i with
          | zero => omega
          | succ i =>
            by_contra hfalse
            have hp' : p c' = true := by
              cases hpc : p c'
              · exact absurd hpc hfalse
              · rfl
            have hmem : c' ∈ cs := List.get?_mem (by simpa using hget')
            have := (findLastIdx_eq_none p cs).mp hrec c' hmem
            rw [hp'] at this
            exact absurd this (by simp)
        · rw [if_neg hc] at h
          exact absurd h (by simp)
      · rintro ⟨d, hget, hp, hmax⟩
        cases n with
        | zero =>
          cases hget
          rw [if_pos hp]
        | succ n =>
          exfalso
          have : findLastIdx p cs = some n := by
            apply (ih n).mpr
            refine ⟨d, by simpa using hget, hp, ?_⟩
            intro i hi c' hget'
            exact hmax (i + 1) (by omega) c' (by simpa using hget')
          rw [hrec] at this
          exact absurd this (by simp)

theorem findFirstIdx_eq_none (p : Char → Bool) (cs : List Char) :
    findFirstIdx p cs = none ↔ ∀ c ∈ cs, p c = false := by
  induction cs with
  | nil => simp [findFirstIdx]
  | cons c cs ih =>
    by_cases hc : p c = true
    · simp only [findFirstIdx]
      rw [if_pos hc]
      simp only [List.mem_cons]
      constructor
      · intro h
        exact absurd h (by simp)
      · intro hall
        rw [hall c (Or.inl rfl)] at hc
        exact absurd hc (by simp)
    · have hc' : p c = false := by
        cases h : p c
        · rfl
        · exact absurd h hc
      simp only [findFirstIdx]
      rw [if_neg (by simp [hc'])]
      simp only [Option.map_eq_none', List.mem_cons]
      constructor
      · intro h d hd
        rcases hd with h' | h'
        · rw [h']; exact hc'
        · exact ih.mp h d h'
      · intro hall
        apply ih.mpr
        intro d hd
        exact hall d (Or.inr hd)

theorem findFirstIdx_le (p : Char → Bool) (cs : List Char) (f i : Nat) (c : Char)
    (hf : findFirstIdx p cs = some f) (hi : cs.get? i = some c) (hp : p c = true) :
    f ≤ i := by
  rcases (findFirstIdx_spec p cs f).mp hf with ⟨d, _, _, hmin⟩
  by_contra hlt
  have := hmin i (by omega) c hi
  rw [hp] at this
  exact absurd this (by simp)

theorem le_findLastIdx (p : Char → Bool) (cs : List Char) (l i : Nat) (c : Char)
    (hl : findLastIdx p cs = some l) (hi : cs.get? i = some c) (hp : p c = true) :
    i ≤ l := by
  rcases (findLastIdx_spec p cs l).mp hl with ⟨d, _, _, hmax⟩
  by_contra hlt
  have := hmax i (by omega) c hi
  rw [hp] at this
  exact absurd this (by simp)

/-- The source's index guard (first `{` strictly before last `}`) is
equivalent to the spec's phrasing: the text contains some `{` strictly
before a later `}`. -/
theorem braceGuard_iff (text : List Char) :
    braceGuard text = true ↔
      ∃ i j, i < j ∧ text.get? i = some '\x7b' ∧ text.get? j = some '\x7d' := by
  unfold braceGuard
  cases hf : findFirstIdx (· = '\x7b') text with
  | none =>
    simp only
    constructor
    · intro h
      exact absurd h (by simp)
    · rintro ⟨i, j, _, hgi, _⟩
      have hmem : '\x7b' ∈ text := List.get?_mem hgi
      have := (findFirstIdx_eq_none (· = '\x7b') text).mp hf '\x7b' hmem
      exact absurd this (by simp)
  | some f =>
    cases hl : findLastIdx (· = '\x7d') text with
    | none =>
      simp only
      constructor
      · intro h
        exact absurd h (by simp)
      · rintro ⟨i, j, _, _, hgj⟩
        have hmem : '\x7d' ∈ text := List.get?_mem hgj
        have := (findLastIdx_eq_none (· = '\x7d') text).mp hl '\x7d' hmem
        exact absurd this (by simp)
    | some l =>
      simp only [decide_eq_true_eq]
      constructor
      · intro hfl
        rcases (findFirstIdx_spec _ text f).mp hf with ⟨c, hgc, hpc, _⟩
        rcases (findLastIdx_spec _ text l).mp hl with ⟨d, hgd, hpd, _⟩
        refine ⟨f, l, hfl, ?_, ?_⟩
        · rw [hgc, Option.some_inj]
          exact decide_eq_true_eq.mp hpc
        · rw [hgd, Option.some_inj]
          exact decide_eq_true_eq.mp hpd
      · rintro ⟨i, j, hij, hgi, hgj⟩
        have h1 : f ≤ i := findFirstIdx_le _ text f i '\x7b' hf hgi (by simp)
        have h2 : j ≤ l := le_findLastIdx _ text l j '\x7d' hl hgj (by simp)
        omega

theorem extractJson_eq_both {J : Type} (parse : List Char → Except String J)
    (text : List Char) (h : ¬ text = []) (f l : Nat)
    (hf : findFirstIdx (· = '\x7b') text = some f)
    (hl : findLastIdx (· = '\x7d') text = some l) :
    extractJson parse text =
      if l ≤ f then Except.error "No JSON object found in response"
      else parse ((text.drop f).take (l + 1 - f)) := by
  unfold extractJson
  rw [if_neg h, hf, hl]

theorem extractJson_eq_noFirst {J : Type} (parse : List Char → Except String J)
    (text : List Char) (h : ¬ text = [])
    (hf : findFirstIdx (· = '\x7b') text = none) :
    extractJson parse text = Except.error "No JSON object found in response" := by
  unfold extractJson
  rw [if_neg h, hf]

theorem extractJson_eq_noLast {J : Type} (parse : List Char → Except String J)
    (text : List Char) (h : ¬ text = [])
    (hl : findLastIdx (· = '\x7d') text = none) :
    extractJson parse text = Except.error "No JSON object found in response" := by
  unfold extractJson
  rw [if_neg h, hl]
  cases findFirstIdx (· = '\x7b') text <;> rfl

theorem braceGuard_eq_both (text : List Char) (f l : Nat)
    (hf : findFirstIdx (· = '\x7b') text = some f)
    (hl : findLastIdx (· = '\x7d') text = some l) :
    braceGuard text = decide (f < l) := by
  unfold braceGuard
  rw [hf, hl]

/-- C1 (amended): for non-empty text, `extractJson` fails with
"No JSON object found in response" exactly when the text lacks a `{`
strictly before a later `}`; otherwise it hands `JSON.parse` the
inclusive slice from the first `{` (no `{` occurs earlier) to the last
`}` (no `}` occurs later) and returns whatever the parse returns,
propagating a parse failure. -/
theorem extractJson_nonempty_spec {J : Type} (parse : List Char → Except String J)
    (text : List Char) (h : text ≠ []) :
    (braceGuard text = true ↔
      ∃ i j, i < j ∧ text.get? i = some '\x7b' ∧ text.get? j = some '\x7d') ∧
    (braceGuard text = false →
      extractJson parse text = Except.error "No JSON object found in response") ∧
    (braceGuard text = true →
      ∃ f l, f < l ∧
        text.get? f = some '\x7b' ∧
        (∀ i, i < f → text.get? i ≠ some '\x7b') ∧
        text.get? l = some '\x7d' ∧
        (∀ j, l < j → text.get? j ≠ some '\x7d') ∧
        extractJson parse text = parse ((text.drop f).take (l + 1 - f))) := by
  refine ⟨braceGuard_iff text, ?_, ?_⟩
  · intro hguard
    cases hf : findFirstIdx (· = '\x7b') text with
    | none => exact extractJson_eq_noFirst parse text h hf
    | some f =>
      cases hl : findLastIdx (· = '\x7d') text with
      | none => exact extractJson_eq_noLast parse text h hl
      | some l =>
        have hfl : ¬ f < l := by
          have := braceGuard_eq_both text f l hf hl
          rw [hguard] at this
          simpa using this.symm
        rw [extractJson_eq_both parse text h f l hf hl, if_pos (by omega)]
  · intro hguard
    cases hf : findFirstIdx (· = '\x7b') text with
    | none =>
      exfalso
      unfold braceGuard at hguard
      rw [hf] at hguard
      cases hx : findLastIdx (· = '\x7d') text <;> rw [hx] at hguard <;>
        exact absurd hguard (by simp)
    | some f =>
      cases hl : findLastIdx (· = '\x7d') text with
      | none =>
        exfalso
        unfold braceGuard at hguard
        rw [hf, hl] at hguard
        exact absurd hguard (by simp)
      | some l =>
        have hfl : f < l := by
          have := braceGuard_eq_both text f l hf hl
          rw [hguard] at this
          exact of_decide_eq_true this.symm
        rcases (findFirstIdx_spec _ text f).mp hf with ⟨c, hgc, hpc, hmin⟩
        rcases (findLastIdx_spec _ text l).mp hl with ⟨d, hgd, hpd, hmax⟩
        refine ⟨f, l, hfl, ?_, ?_, ?_, ?_, ?_⟩
        · rw [hgc, Option.some_inj]
          exact decide_eq_true_eq.mp hpc
        · intro i hi hcontra
          have := hmin i hi '\x7b' hcontra
          exact absurd this (by simp)
        · rw [hgd, Option.some_inj]
          exact decide_eq_true_eq.mp hpd
        · intro j hj hcontra
          have := hmax j hj '\x7d' hcontra
          exact absurd this (by simp)
        · rw [extractJson_eq_both parse text h f l hf hl, if_neg (by omega)]

/-- C1 witness: the amended specification instantiated at the concrete
text `{1}` and a concrete parse oracle. -/
theorem extractJson_nonempty_spec_witness :
    (braceGuard ['\x7b', '1', '\x7d'] = true ↔
      ∃ i j, i < j ∧ List.get? ['\x7b', '1', '\x7d'] i = some '\x7b' ∧
        List.get? ['\x7b', '1', '\x7d'] j = some '\x7d') ∧
    (braceGuard ['\x7b', '1', '\x7d'] = false →
      extractJson (fun s => Except.ok s) ['\x7b', '1', '\x7d'] =
        Except.error "No JSON object found in response") ∧
    (braceGuard ['\x7b', '1', '\x7d'] = true →
      ∃ f l, f < l ∧
        List.get? ['\x7b', '1', '\x7d'] f = some '\x7b' ∧
        (∀ i, i < f → List.get? ['\x7b', '1', '\x7d'] i ≠ some '\x7b') ∧
        List.get? ['\x7b', '1', '\x7d'] l = some '\x7d' ∧
        (∀ j, l < j → List.get? ['\x7b', '1', '\x7d'] j ≠ some '\x7d') ∧
        extractJson (fun s => Except.ok s) ['\x7b', '1', '\x7d'] =
          Except.ok ((List.drop f ['\x7b', '1', '\x7d']).take (l + 1 - f))) :=
  extractJson_nonempty_spec (fun s => Except.ok s) ['\x7b', '1', '\x7d'] (by decide)

/-- C1 counterexample: the claim as frozen is false on the code in two
places.  (1) On empty (or absent) input `extractJson` raises
"No text to parse as JSON", not the claimed "no JSON object found"
error.  (2) On the text `{x}` a `{` occurs strictly before a later `}`
yet the call does not succeed when `JSON.parse` rejects the slice
(as the real `JSON.parse` does on `{x}`): the parse error propagates. -/
theorem extractJson_claim_counterexample :
    extractJson (fun s => Except.ok s) [] =
      Except.error "No text to parse as JSON" ∧
    ("No text to parse as JSON" : String) ≠ "No JSON object found in response" ∧
    (∃ i j, i < j ∧ List.get? ['\x7b', 'x', '\x7d'] i = some '\x7b' ∧
      List.get? ['\x7b', 'x', '\x7d'] j = some '\x7d') ∧
    extractJson (J := Unit) (fun _ => Except.error "Unexpected token x in JSON")
        ['\x7b', 'x', '\x7d'] =
      Except.error "Unexpected token x in JSON" :=
  ⟨rfl, by decide, ⟨0, 2, by decide, rfl, rfl⟩, rfl⟩

/-- C10: on the empty (or absent, both JS-falsy) input, `extractJson`
fails with "No text to parse as JSON", an error raised before the brace
scan and distinct from the "No JSON object found in response" error
that non-empty brace-free text (for example `"ab"`) produces. -/
theorem extractJson_empty_distinct {J : Type} (parse : List Char → Except String J) :
    extractJson parse [] = Except.error "No text to parse as JSON" ∧
    extractJson parse ['a', 'b'] = Except.error "No JSON object found in response" ∧
    ("No text to parse as JSON" : String) ≠ "No JSON object found in response" :=
  ⟨rfl, rfl, by decide⟩

theorem string_eq_iff_data (a b : String) : a = b ↔ a.data = b.data := by
  constructor
  · intro h; rw [h]
  · intro h
    cases a
    cases b
    simp only at h
    rw [h]

theorem append_ne_empty_left (a b : String) (h : a ≠ "") : a ++ b ≠ "" := by
  intro hc
  apply h
  have hd := (string_eq_iff_data _ _).mp hc
  rw [String.data_append] at hd
  rcases List.append_eq_nil.mp hd with ⟨ha, _⟩
  exact (string_eq_iff_data a "").mpr (by simpa using ha)

theorem joinSep_cons (s a : String) (l : List String) (h : l ≠ []) :
    joinSep s (a :: l) = a ++ s ++ joinSep s l := by
  cases l with
  | nil => exact absurd rfl h
  | cons b bs => rfl

theorem joinSep_ne_empty (s a : String) (l : List String) (h : a ≠ "") :
    joinSep s (a :: l) ≠ "" := by
  cases l with
  | nil => exact h
  | cons b bs =>
    rw [joinSep_cons s a (b :: bs) (by simp)]
    exact append_ne_empty_left _ _ (append_ne_empty_left a s h)

theorem joinSep_append (s : String) (l1 l2 : List String) (h1 : l1 ≠ [])
    (h2 : l2 ≠ []) :
    joinSep s (l1 ++ l2) = joinSep s l1 ++ s ++ joinSep s l2 := by
  induction l1 with
  | nil => exact absurd rfl h1
  | cons a as ih =>
    cases as with
    | nil =>
      cases l2 with
      | nil => exact absurd rfl h2
      | cons b bs =>
        simp only [List.cons_append, List.nil_append]
        rw [joinSep_cons s a (b :: bs) (by simp)]
        rfl
    | cons c cs =>
      have ih' := ih (by simp)
      simp only [List.cons_append] at ih' ⊢
      rw [joinSep_cons s a (c :: (cs ++ l2)) (by simp), ih',
        joinSep_cons s a (c :: cs) (by simp)]
      simp [String.append_assoc]

theorem qaBlock_ne_empty (i : Nat) (t : InterviewTurn) : qaBlock i t ≠ "" := by
  unfold qaBlock
  apply append_ne_empty_left
  apply append_ne_empty_left
  apply append_ne_empty_left
  apply append_ne_empty_left
  apply append_ne_empty_left
  apply append_ne_empty_left
  apply append_ne_empty_left
  decide

theorem summaryBlock_eq_empty_iff (summary : Option (List String)) :
    summaryBlock summary = "" ↔ (summary = none ∨ summary = some []) := by
  cases summary with
  | none => simp [summaryBlock]
  | some l =>
    cases l with
    | nil => simp [summaryBlock]
    | cons x xs =>
      simp only [summaryBlock, if_neg (by simp : ¬ (x :: xs = []))]
      constructor
      · intro h
        exact absurd h (append_ne_empty_left "Summary:\n" _ (by decide))
      · rintro (h | h) <;> exact absurd h (by simp)

theorem formatFeedback_eq_empty_iff (feedback : Option (List String)) :
    formatFeedback feedback = "" ↔
      ((feedback.getD []).map jsTrim).filter (fun s => s ≠ "") = [] := by
  cases feedback with
  | none => simp [formatFeedback]
  | some fb =>
    simp only [formatFeedback, Option.getD_some]
    by_cases h : (fb.map jsTrim).filter (fun s => s ≠ "") = []
    · rw [if_pos h]
      exact iff_of_true rfl h
    · rw [if_neg h]
      constructor
      · intro hc
        exact absurd hc (append_ne_empty_left "Feedback:\n" _ (by decide))
      · intro hc
        exact absurd hc h

theorem filter_single_eq_nil {x : String} (h : x = "") :
    [x].filter (fun s => s ≠ "") = [] := by
  simp [h]

theorem filter_single_eq_self {x : String} (h : x ≠ "") :
    [x].filter (fun s => s ≠ "") = [x] := by
  simp [h]

theorem filter_head_blocks (brief : String) (interview : List InterviewTurn)
    (rest : List String) :
    ((("Brief: " ++ brief) :: interview.enum.map (fun p => qaBlock p.1 p.2)) ++
        rest).filter (fun s => s ≠ "") =
      ("Brief: " ++ brief) :: (interview.enum.map (fun p => qaBlock p.1 p.2) ++
        rest.filter (fun s => s ≠ "")) := by
  rw [List.cons_append, List.filter_cons_of_pos
    (by simpa using append_ne_empty_left "Brief: " brief (by decide)),
    List.filter_append, List.filter_eq_self.mpr]
  intro x hx
  rcases List.mem_map.mp hx with ⟨p, _, rfl⟩
  simpa using qaBlock_ne_empty p.1 p.2

theorem summaryBlock_some_cons (x : String) (xs : List String) :
    summaryBlock (some (x :: xs)) =
      "Summary:\n" ++ joinSep "\n" ((x :: xs).map (fun item => "- " ++ item)) := by
  rw [summaryBlock]
  exact if_neg (by simp)

theorem filter_summaryBlock (summary : Option (List String)) :
    [summaryBlock summary].filter (fun s => s ≠ "") =
      (match summary with
       | some (x :: xs) =>
         ["Summary:\n" ++ joinSep "\n" ((x :: xs).map (fun item => "- " ++ item))]
       | _ => []) := by
  cases summary with
  | none => simp [summaryBlock]
  | some l =>
    cases l with
    | nil => simp [summaryBlock]
    | cons x xs =>
      rw [summaryBlock_some_cons]
      exact filter_single_eq_self (append_ne_empty_left _ _ (by decide))

theorem filter_formatFeedback (feedback : Option (List String)) :
    [formatFeedback feedback].filter (fun s => s ≠ "") =
      (if ((feedback.getD []).map jsTrim).filter (fun s => s ≠ "") = []
       then []
       else ["Feedback:\n" ++ joinSep "\n"
         ((((feedback.getD []).map jsTrim).filter (fun s => s ≠ "")).map
           (fun item => "- " ++ item))]) := by
  cases feedback with
  | none => simp [formatFeedback]
  | some l =>
    simp only [formatFeedback, Option.getD_some]
    by_cases h : (l.map jsTrim).filter (fun s => s ≠ "") = []
    · rw [if_pos h, if_pos h]
      simp
    · rw [if_neg h, if_neg h]
      exact filter_single_eq_self (append_ne_empty_left _ _ (by decide))

theorem buildClarifyingAnswers_eq (brief : String)
    (interview : List InterviewTurn) (summary : Option (List String)) :
    buildClarifyingAnswers brief interview summary =
      joinSep "\n\n"
        ((("Brief: " ++ brief) :: interview.enum.map (fun p => qaBlock p.1 p.2)) ++
          (match summary with
           | some (x :: xs) =>
             ["Summary:\n" ++ joinSep "\n" ((x :: xs).map (fun item => "- " ++ item))]
           | _ => [])) := by
  unfold buildClarifyingAnswers
  rw [filter_head_blocks, filter_summaryBlock]
  rw [List.cons_append]

theorem buildClarifyingAnswersWithFeedback_eq (brief : String)
    (interview : List InterviewTurn) (summary : Option (List String))
    (feedback : Option (List String)) :
    buildClarifyingAnswersWithFeedback brief interview summary feedback =
      joinSep "\n\n"
        (((("Brief: " ++ brief) ::
            interview.enum.map (fun p => qaBlock p.1 p.2)) ++
          (match summary with
           | some (x :: xs) =>
             ["Summary:\n" ++ joinSep "\n" ((x :: xs).map (fun item => "- " ++ item))]
           | _ => [])) ++
          (if ((feedback.getD []).map jsTrim).filter (fun s => s ≠ "") = []
           then []
           else ["Feedback:\n" ++ joinSep "\n"
             ((((feedback.getD []).map jsTrim).filter (fun s => s ≠ "")).map
               (fun item => "- " ++ item))])) := by
  have hbase_ne : buildClarifyingAnswers brief interview summary ≠ "" := by
    rw [buildClarifyingAnswers_eq, List.cons_append]
    exact joinSep_ne_empty _ _ _
      (append_ne_empty_left "Brief: " brief (by decide))
  unfold buildClarifyingAnswersWithFeedback
  rw [List.filter_cons_of_pos (by simpa using hbase_ne), filter_formatFeedback]
  by_cases h : ((feedback.getD []).map jsTrim).filter (fun s => s ≠ "") = []
  · rw [if_pos h, List.append_nil, buildClarifyingAnswers_eq]
    rfl
  · rw [if_neg h]
    rw [joinSep_cons _ _ _ (by simp), joinSep_append _ _ _ (by simp) (by simp)]
    rw [buildClarifyingAnswers_eq]

theorem buildClarifyingAnswersRoute_eq (brief : String)
    (interview : List InterviewTurn) (summary : Option (List String))
    (feedback : Option (List String)) :
    buildClarifyingAnswersRoute brief interview summary feedback =
      joinSep "\n\n"
        (((("Brief: " ++ brief) ::
            interview.enum.map (fun p => qaBlock p.1 p.2)) ++
          (match summary with
           | some (x :: xs) =>
             ["Summary:\n" ++ joinSep "\n" ((x :: xs).map (fun item => "- " ++ item))]
           | _ => [])) ++
          (if ((feedback.getD []).map jsTrim).filter (fun s => s ≠ "") = []
           then []
           else ["Feedback:\n" ++ joinSep "\n"
             ((((feedback.getD []).map jsTrim).filter (fun s => s ≠ "")).map
               (fun item => "- " ++ item))])) := by
  unfold buildClarifyingAnswersRoute
  rw [show ([summaryBlock summary, formatFeedback feedback] : List String) =
    [summaryBlock summary] ++ [formatFeedback feedback] from rfl]
  rw [← List.append_assoc]
  rw [List.filter_append
    ((("Brief: " ++ brief) :: interview.enum.map (fun p => qaBlock p.1 p.2)) ++
      [summaryBlock summary]) [formatFeedback feedback]]
  rw [filter_head_blocks, filter_summaryBlock, filter_formatFeedback]
  simp [List.cons_append]

/-- C2: the formatted synthesis input is, joined by blank lines, the
brief line, then one `Q{n}/A{n}` block per interview turn in index
order, then a `Summary:` bullet block exactly when a non-empty summary
is present, then a `Feedback:` bullet block exactly when some feedback
string is non-blank after trimming; empty blocks vanish entirely.  The
web route's four-argument formatter agrees with the CLI one. -/
theorem buildClarifyingAnswersWithFeedback_spec (brief : String)
    (interview : List InterviewTurn) (summary : Option (List String))
    (feedback : Option (List String)) :
    buildClarifyingAnswersWithFeedback brief interview summary feedback =
      joinSep "\n\n"
        (((("Brief: " ++ brief) ::
            interview.enum.map (fun p => qaBlock p.1 p.2)) ++
          (match summary with
           | some (x :: xs) =>
             ["Summary:\n" ++ joinSep "\n" ((x :: xs).map (fun item => "- " ++ item))]
           | _ => [])) ++
          (if ((feedback.getD []).map jsTrim).filter (fun s => s ≠ "") = []
           then []
           else ["Feedback:\n" ++ joinSep "\n"
             ((((feedback.getD []).map jsTrim).filter (fun s => s ≠ "")).map
               (fun item => "- " ++ item))])) ∧
    buildClarifyingAnswersRoute brief interview summary feedback =
      buildClarifyingAnswersWithFeedback brief interview summary feedback :=
  ⟨buildClarifyingAnswersWithFeedback_eq brief interview summary feedback,
    (buildClarifyingAnswersRoute_eq brief interview summary feedback).trans
      (buildClarifyingAnswersWithFeedback_eq brief interview summary feedback).symm⟩

theorem enumFrom_map_add_one {α : Type} (l : List α) :
    ∀ k : Nat, (List.enumFrom k l).map (fun p => p.1 + 1) =
      List.range' (k + 1) l.length := by
  induction l with
  | nil => intro k; rfl
  | cons x xs ih =>
    intro k
    simp only [List.enumFrom, List.map_cons, List.length_cons, List.range'_succ]
    rw [ih (k + 1)]

/-- C4: each exported story of `buildPrdJson` carries `priority` equal
to its 1-based input position (regardless of its id string), `passes`
false, `notes` empty, and acceptance criteria defaulted to `["TBD"]`
when missing or empty; the export preserves the story count. -/
theorem buildPrdJson_spec (project branchName description : String)
    (stories : List UserStory) :
    ((buildPrdJson project branchName description (some stories)).userStories).map
        (fun s => s.priority) = List.range' 1 stories.length ∧
    ((buildPrdJson project branchName description (some stories)).userStories).map
        (fun s => s.passes) = List.replicate stories.length false ∧
    ((buildPrdJson project branchName description (some stories)).userStories).map
        (fun s => s.notes) = List.replicate stories.length "" ∧
    ((buildPrdJson project branchName description (some stories)).userStories).map
        (fun s => s.acceptanceCriteria) =
      stories.map (fun s =>
        match s.acceptanceCriteria with
        | some (x :: xs) => x :: xs
        | _ => ["TBD"]) ∧
    ((buildPrdJson project branchName description (some stories)).userStories).length =
      stories.length := by
  refine ⟨?_, ?_, ?_, ?_, ?_⟩
  · show ((stories.enum.map _).map (fun s => PrdStoryJson.priority s)) = _
    rw [List.map_map]
    have : ∀ p : Nat × UserStory,
        (PrdStoryJson.priority ∘ fun p : Nat × UserStory =>
          ({ id := p.2.id, title := p.2.title, description := p.2.description,
             acceptanceCriteria := ensureList p.2.acceptanceCriteria ["TBD"],
             priority := p.1 + 1, passes := false, notes := "" } : PrdStoryJson)) p =
          p.1 + 1 := fun p => rfl
    rw [List.map_congr_left (fun p _ => this p)]
    exact enumFrom_map_add_one stories 0
  · show ((stories.enum.map _).map (fun s => PrdStoryJson.passes s)) = _
    rw [List.map_map]
    induction stories with
    | nil => rfl
    | cons x xs ih =>
      simp only [List.length_cons, List.replicate_succ]
      rw [show (x :: xs).enum = (0, x) :: (List.enumFrom 1 xs) from rfl]
      simp only [List.map_cons]
      refine congrArg _ ?_
      have hgen : ∀ (l : List UserStory) (k : Nat),
          (List.enumFrom k l).map (fun p : Nat × UserStory => false) =
            List.replicate l.length false := by
        intro l
        induction l with
        | nil => intro k; rfl
        | cons y ys ihy =>
          intro k
          simp only [List.enumFrom, List.map_cons, List.length_cons,
            List.replicate_succ]
          rw [ihy (k + 1)]
      exact hgen xs 1
  · show ((stories.enum.map _).map (fun s => PrdStoryJson.notes s)) = _
    rw [List.map_map]
    have hgen : ∀ (l : List UserStory) (k : Nat),
        (List.enumFrom k l).map ((fun s => PrdStoryJson.notes s) ∘ fun p : Nat × UserStory =>
          ({ id := p.2.id, title := p.2.title, description := p.2.description,
             acceptanceCriteria := ensureList p.2.acceptanceCriteria ["TBD"],
             priority := p.1 + 1, passes := false, notes := "" } : PrdStoryJson)) =
          List.replicate l.length "" := by
      intro l
      induction l with
      | nil => intro k; rfl
      | cons y ys ihy =>
        intro k
        simp only [List.enumFrom, List.map_cons, List.length_cons,
          List.replicate_succ]
        rw [ihy (k + 1)]
        rfl
    exact hgen stories 0
  · show ((stories.enum.map _).map (fun s => PrdStoryJson.acceptanceCriteria s)) = _
    rw [List.map_map]
    have hstep : ∀ p : Nat × UserStory,
        ((fun s => PrdStoryJson.acceptanceCriteria s) ∘ fun p : Nat × UserStory =>
          ({ id := p.2.id, title := p.2.title, description := p.2.description,
             acceptanceCriteria := ensureList p.2.acceptanceCriteria ["TBD"],
             priority := p.1 + 1, passes := false, notes := "" } : PrdStoryJson)) p =
          (match p.2.acceptanceCriteria with
           | some (x :: xs) => x :: xs
           | _ => ["TBD"]) := by
      intro p
      show ensureList p.2.acceptanceCriteria ["TBD"] = _
      cases h : p.2.acceptanceCriteria with
      | none => rfl
      | some l => cases l <;> rfl
    rw [List.map_congr_left (fun p _ => hstep p)]
    have : stories.enum.map ((fun s =>
        match s.acceptanceCriteria with
        | some (x :: xs) => x :: xs
        | _ => ["TBD"]) ∘ Prod.snd) = stories.map (fun s =>
        match s.acceptanceCriteria with
        | some (x :: xs) => x :: xs
        | _ => ["TBD"]) := by
      rw [← List.map_map, List.enum_map_snd]
    exact this
  · show ((stories.enum.map _).length) = _
    rw [List.length_map, List.enum_length]

theorem mergeFeaturesSpec_nil (fs : List Feature) :
    mergeFeaturesSpec fs [] = fs := by
  induction fs with
  | nil => rfl
  | cons f fs ih => rw [mergeFeaturesSpec, ih]

theorem mergeFeaturesSpec_length (fs : List Feature)
    (ovs : List (Option Feature)) :
    (mergeFeaturesSpec fs ovs).length = fs.length := by
  induction fs generalizing ovs with
  | nil => rfl
  | cons f fs ih =>
    cases ovs with
    | nil => simp [mergeFeaturesSpec, ih]
    | cons o os =>
      cases o with
      | none => simp [mergeFeaturesSpec, ih]
      | some ov => simp [mergeFeaturesSpec, ih]

theorem enumFrom_map_override (fs : List Feature) :
    ∀ (ovs : List (Option Feature)) (k : Nat),
    (List.enumFrom k fs).map (fun p =>
      match ovs.get? p.1 with
      | some (some o) => overrideFeature p.2 o
      | _ => p.2) = mergeFeaturesSpec fs (ovs.drop k) := by
  induction fs with
  | nil => intro ovs k; rfl
  | cons f fs ih =>
    intro ovs k
    simp only [List.enumFrom, List.map_cons]
    have hget : ovs.get? k = (ovs.drop k).head? := by
      rw [List.head?_drop, List.get?_eq_getElem?]
    have htail : ovs.drop (k + 1) = (ovs.drop k).tail := by
      rw [List.tail_drop]
    cases hdk : ovs.drop k with
    | nil =>
      rw [mergeFeaturesSpec]
      have h0 : ovs.get? k = none := by rw [hget, hdk]; rfl
      rw [h0]
      have h1 : ovs.drop (k + 1) = [] := by rw [htail, hdk]; rfl
      have := ih ovs (k + 1)
      rw [h1] at this
      rw [this]
    | cons o os =>
      have h0 : ovs.get? k = some o := by rw [hget, hdk]; rfl
      have h1 : ovs.drop (k + 1) = os := by rw [htail, hdk]; rfl
      have htl := ih ovs (k + 1)
      rw [h1] at htl
      cases o with
      | none =>
        rw [mergeFeaturesSpec, h0, htl]
      | some ov =>
        rw [mergeFeaturesSpec, h0, htl]

/-- C7: the export-time feature-override merge is positional — at each
index an override's non-empty `name`/`summary` and non-empty
`userStoryIds` replace the original, missing overrides and indices
beyond the override list pass the feature through, override entries
beyond the original features are ignored — and the merged list has the
original length; absent or empty override lists leave the feature list
untouched. -/
theorem applyFeatureOverrides_spec (features : List Feature)
    (overrides : List (Option Feature)) :
    applyFeatureOverrides (some features) (some overrides) =
      some (mergeFeaturesSpec features overrides) ∧
    (mergeFeaturesSpec features overrides).length = features.length ∧
    applyFeatureOverrides (some features) none = some features ∧
    applyFeatureOverrides (some features) (some []) = some features := by
  refine ⟨?_, mergeFeaturesSpec_length features overrides, rfl, ?_⟩
  · rw [show applyFeatureOverrides (some features) (some overrides) =
      (if overrides = [] then some features
       else some (features.enum.map (fun p =>
         match overrides.get? p.1 with
         | some (some o) => overrideFeature p.2 o
         | _ => p.2))) from rfl]
    by_cases h : overrides = []
    · rw [if_pos h, h, mergeFeaturesSpec_nil]
    · rw [if_neg h]
      have := enumFrom_map_override features overrides 0
      rw [List.drop_zero] at this
      rw [show features.enum = List.enumFrom 0 features from rfl, this]
  · rfl

/-- C8: the completion gateway (outbound calls modelled as the `call`
oracle, `JSON.parse` as `parse`) makes its strict-JSON attempt first;
if that attempt fails for any reason — the call erroring or the
returned text failing to decode — exactly one fallback request is made
without the strict-JSON flag and its raw text runs through
`extractJson`; if both attempts fail the fallback's error propagates,
with no further retry; a successful first attempt makes no fallback
call. -/
theorem generateJsonResponse_spec {J : Type}
    (call : Bool → Except String (Option (List Char)))
    (parse : List Char → Except String J) :
    (∀ v, gatewayAttempt call parse true = Except.ok v →
      generateJsonResponse call parse = (Except.ok v, [true])) ∧
    (∀ e, gatewayAttempt call parse true = Except.error e →
      generateJsonResponse call parse =
        (gatewayAttempt call parse false, [true, false])) ∧
    (∀ c e, call true = Except.ok c →
      extractJson parse (c.getD []) = Except.error e →
      (generateJsonResponse call parse).2 = [true, false]) ∧
    (∀ e1 e2, gatewayAttempt call parse true = Except.error e1 →
      gatewayAttempt call parse false = Except.error e2 →
      generateJsonResponse call parse = (Except.error e2, [true, false])) := by
  refine ⟨?_, ?_, ?_, ?_⟩
  · intro v h
    unfold generateJsonResponse
    rw [h]
  · intro e h
    unfold generateJsonResponse
    rw [h]
  · intro c e hc hx
    have h : gatewayAttempt call parse true = Except.error e := by
      unfold gatewayAttempt
      rw [hc]
      exact hx
    unfold generateJsonResponse
    rw [h]
  · intro e1 e2 h1 h2
    unfold generateJsonResponse
    rw [h1, h2]

/-- C8 witness: a strict attempt that fails with "boom" makes exactly
the two requests `[strict, non-strict]` and returns the fallback's
result. -/
theorem generateJsonResponse_spec_witness :
    generateJsonResponse (J := List Char)
        (fun strict => if strict then Except.error "boom"
          else Except.ok (some ['\x7b', '\x7d']))
        (fun s => Except.ok s) =
      (gatewayAttempt (J := List Char)
        (fun strict => if strict then Except.error "boom"
          else Except.ok (some ['\x7b', '\x7d']))
        (fun s => Except.ok s) false, [true, false]) :=
  (generateJsonResponse_spec
    (fun strict => if strict then Except.error "boom"
      else Except.ok (some ['\x7b', '\x7d']))
    (fun s => Except.ok s)).2.1 "boom" rfl

/-- C9 (amended): restarting resets the web client's interview flow
state — history, summary, completion flag, current question, both
feedback maps and their drafts, generation result and error — to their
initial empty values and returns to the not-started state, and the CLI
restart re-enters `runInterview` with every session collection fresh;
but the web client's cached preview features and stories are left
unchanged by `handleRestartInterview`. -/
theorem restart_spec (s : WebSessionState) (c : CliInterviewState) :
    (handleRestartInterview s).interviewStarted = false ∧
    (handleRestartInterview s).interviewHistory = [] ∧
    (handleRestartInterview s).interviewSummary = none ∧
    (handleRestartInterview s).interviewDone = false ∧
    (handleRestartInterview s).currentQuestion = none ∧
    (handleRestartInterview s).featureMessages = [] ∧
    (handleRestartInterview s).featureMessageDrafts = [] ∧
    (handleRestartInterview s).storyMessages = [] ∧
    (handleRestartInterview s).storyMessageDrafts = [] ∧
    (handleRestartInterview s).result = none ∧
    (handleRestartInterview s).error = none ∧
    (handleRestartInterview s).previewFeatures = s.previewFeatures ∧
    (handleRestartInterview s).previewStories = s.previewStories ∧
    (handleRestartInterview s).brief = s.brief ∧
    cliRestart c = cliRunInterviewInit :=
  ⟨rfl, rfl, rfl, rfl, rfl, rfl, rfl, rfl, rfl, rfl, rfl, rfl, rfl, rfl, rfl⟩

/-- C9 counterexample: in a web session whose preview cache holds a
feature and a story, `handleRestartInterview` leaves both cached lists
non-empty, so the restart transition does not reset the cached preview
features/stories to their initial empty values. -/
theorem restart_claim_counterexample :
    (handleRestartInterview
      ⟨"b", true, some "q", [⟨"q", "a"⟩], none, "", [⟨"Auth", "", []⟩],
        [⟨"US-001", "T", "", none⟩], [], [], [], [], true, none,
        none⟩).previewFeatures = [⟨"Auth", "", []⟩] ∧
    (handleRestartInterview
      ⟨"b", true, some "q", [⟨"q", "a"⟩], none, "", [⟨"Auth", "", []⟩],
        [⟨"US-001", "T", "", none⟩], [], [], [], [], true, none,
        none⟩).previewStories = [⟨"US-001", "T", "", none⟩] ∧
    ([⟨"Auth", "", []⟩] : List Feature) ≠ [] ∧
    ([⟨"US-001", "T", "", none⟩] : List UserStory) ≠ [] :=
  ⟨rfl, rfl, by decide, by decide⟩

theorem parts_goals (p : PrdInput) :
    (buildPrdMarkdownParts p).get? 6 =
      some (joinSep "\n" ((ensureList p.goals ["TBD"]).map
        (fun item => "- " ++ item))) := rfl

theorem parts_userStories (p : PrdInput) :
    (buildPrdMarkdownParts p).get? 9 =
      some (if joinSep "\n\n" ((ensureList p.userStories []).map storyBlock) = ""
        then "TBD"
        else joinSep "\n\n" ((ensureList p.userStories []).map storyBlock)) := rfl

theorem parts_functional (p : PrdInput) :
    (buildPrdMarkdownParts p).get? 12 =
      some (joinSep "\n" ((numberedFunctionalItems
        (ensureList p.functionalRequirements ["TBD"])).map
          (fun item => "- " ++ item))) := rfl

theorem ensureList_of_empty {α : Type} (v : Option (List α)) (fb : List α)
    (h : v = none ∨ v = some []) : ensureList v fb = fb := by
  rcases h with h | h <;> rw [h] <;> rfl

/-- C5: every missing or empty list field of the markdown renderer is
replaced by the `["TBD"]` placeholder before rendering — empty `goals`
render as the single bullet `- TBD`, and likewise the other bullet
sections (empty functional requirements render as `- FR-1: TBD` after
numbering) — except `userStories`, which defaults to the empty list so
that the User Stories section body is exactly `TBD` with no `###` story
block fabricated. -/
theorem buildPrdMarkdown_placeholders (p : PrdInput) :
    ((p.goals = none ∨ p.goals = some []) →
      (buildPrdMarkdownParts p).get? 6 = some "- TBD") ∧
    ((p.userStories = none ∨ p.userStories = some []) →
      (buildPrdMarkdownParts p).get? 9 = some "TBD") ∧
    ((p.functionalRequirements = none ∨ p.functionalRequirements = some []) →
      (buildPrdMarkdownParts p).get? 12 = some "- FR-1: TBD") ∧
    ((p.nonGoals = none ∨ p.nonGoals = some []) →
      (buildPrdMarkdownParts p).get? 15 = some "- TBD") ∧
    ((p.designConsiderations = none ∨ p.designConsiderations = some []) →
      (buildPrdMarkdownParts p).get? 18 = some "- TBD") ∧
    ((p.technicalConsiderations = none ∨ p.technicalConsiderations = some []) →
      (buildPrdMarkdownParts p).get? 21 = some "- TBD") ∧
    ((p.successMetrics = none ∨ p.successMetrics = some []) →
      (buildPrdMarkdownParts p).get? 24 = some "- TBD") ∧
    ((p.openQuestions = none ∨ p.openQuestions = some []) →
      (buildPrdMarkdownParts p).get? 27 = some "- TBD") ∧
    buildPrdMarkdown p = joinSep "\n" (buildPrdMarkdownParts p) := by
  refine ⟨?_, ?_, ?_, ?_, ?_, ?_, ?_, ?_, rfl⟩
  · intro h
    rw [parts_goals, ensureList_of_empty _ _ h]
    rfl
  · intro h
    rw [parts_userStories, ensureList_of_empty _ _ h]
    rfl
  · intro h
    rw [parts_functional, ensureList_of_empty _ _ h]
    rfl
  · intro h
    show some (joinSep "\n" ((ensureList p.nonGoals ["TBD"]).map
      (fun item => "- " ++ item))) = _
    rw [ensureList_of_empty _ _ h]
    rfl
  · intro h
    show some (joinSep "\n" ((ensureList p.designConsiderations ["TBD"]).map
      (fun item => "- " ++ item))) = _
    rw [ensureList_of_empty _ _ h]
    rfl
  · intro h
    show some (joinSep "\n" ((ensureList p.technicalConsiderations ["TBD"]).map
      (fun item => "- " ++ item))) = _
    rw [ensureList_of_empty _ _ h]
    rfl
  · intro h
    show some (joinSep "\n" ((ensureList p.successMetrics ["TBD"]).map
      (fun item => "- " ++ item))) = _
    rw [ensureList_of_empty _ _ h]
    rfl
  · intro h
    show some (joinSep "\n" ((ensureList p.openQuestions ["TBD"]).map
      (fun item => "- " ++ item))) = _
    rw [ensureList_of_empty _ _ h]
    rfl

/-- C5 witness: the placeholder rules evaluated on the input whose
list fields are all missing. -/
theorem buildPrdMarkdown_placeholders_witness :
    (buildPrdMarkdownParts
        ⟨"F", "", none, none, none, none, none, none, none, none⟩).get? 6 =
      some "- TBD" ∧
    (buildPrdMarkdownParts
        ⟨"F", "", none, none, none, none, none, none, none, none⟩).get? 9 =
      some "TBD" ∧
    (buildPrdMarkdownParts
        ⟨"F", "", none, none, none, none, none, none, none, none⟩).get? 12 =
      some "- FR-1: TBD" :=
  ⟨(buildPrdMarkdown_placeholders
      ⟨"F", "", none, none, none, none, none, none, none, none⟩).1 (Or.inl rfl),
    (buildPrdMarkdown_placeholders
      ⟨"F", "", none, none, none, none, none, none, none, none⟩).2.1 (Or.inl rfl),
    (buildPrdMarkdown_placeholders
      ⟨"F", "", none, none, none, none, none, none, none, none⟩).2.2.1 (Or.inl rfl)⟩

/-- C6: with a non-empty functional-requirements list, the rendered
Functional Requirements section is one `- ` bullet per item in
encounter order, the item prefixed `FR-{n}:` with its 1-based position
unless it already matches `/^FR-\d+:/i`, in which case it is emitted
unchanged. -/
theorem buildPrdMarkdown_frNumbering (p : PrdInput) (items : List String)
    (h : p.functionalRequirements = some items) (hne : items ≠ []) :
    (buildPrdMarkdownParts p).get? 12 =
      some (joinSep "\n" (items.enum.map (fun q =>
        "- " ++ (if frPrefixTest q.2 then q.2
          else "FR-" ++ toString (q.1 + 1) ++ ": " ++ q.2)))) := by
  rw [parts_functional, h]
  have hens : ensureList (some items) ["TBD"] = items := by
    cases items with
    | nil => exact absurd rfl hne
    | cons x xs => rfl
  rw [hens]
  unfold numberedFunctionalItems
  rw [List.map_map]
  rfl

/-- C6 witness: the claim's example input renders as
`- FR-1: Support login` then `- FR-9: Legacy item`. -/
theorem buildPrdMarkdown_frNumbering_witness :
    (buildPrdMarkdownParts
        ⟨"F", "", none, none, some ["Support login", "FR-9: Legacy item"],
          none, none, none, none, none⟩).get? 12 =
      some "- FR-1: Support login\n- FR-9: Legacy item" := by
  rw [buildPrdMarkdown_frNumbering
    ⟨"F", "", none, none, some ["Support login", "FR-9: Legacy item"],
      none, none, none, none, none⟩
    ["Support login", "FR-9: Legacy item"] rfl (by decide)]
  rfl

theorem insertByKey_perm {α : Type} (p : Nat × α) (l : List (Nat × α)) :
    List.Perm (insertByKey p l) (p :: l) := by
  induction l with
  | nil => exact List.Perm.refl _
  | cons q qs ih =>
    unfold insertByKey
    by_cases h : p.1 ≤ q.1
    · rw [if_pos h]
    · rw [if_neg h]
      exact (ih.cons q).trans (List.Perm.swap p q qs)

theorem sortByKey_perm {α : Type} (l : List (Nat × α)) :
    List.Perm (sortByKey l) l := by
  induction l with
  | nil => exact List.Perm.refl _
  | cons p ps ih =>
    exact (insertByKey_perm p (sortByKey ps)).trans (ih.cons p)

theorem insertByKey_sorted {α : Type} (p : Nat × α) (l : List (Nat × α))
    (h : l.Pairwise (fun a b => a.1 ≤ b.1)) :
    (insertByKey p l).Pairwise (fun a b => a.1 ≤ b.1) := by
  induction l with
  | nil => simp [insertByKey]
  | cons q qs ih =>
    rcases List.pairwise_cons.mp h with ⟨hq, hqs⟩
    unfold insertByKey
    by_cases hpq : p.1 ≤ q.1
    · rw [if_pos hpq]
      refine List.pairwise_cons.mpr ⟨?_, h⟩
      intro r hr
      rcases List.mem_cons.mp hr with hr' | hr'
      · rw [hr']; exact hpq
      · exact le_trans hpq (hq r hr')
    · rw [if_neg hpq]
      refine List.pairwise_cons.mpr ⟨?_, ih hqs⟩
      intro r hr
      rcases List.mem_cons.mp ((insertByKey_perm p qs).mem_iff.mp hr) with hr' | hr'
      · rw [hr']; omega
      · exact hq r hr'

theorem sortByKey_sorted {α : Type} (l : List (Nat × α)) :
    (sortByKey l).Pairwise (fun a b => a.1 ≤ b.1) := by
  induction l with
  | nil => simp [sortByKey]
  | cons p ps ih => exact insertByKey_sorted p (sortByKey ps) ih

theorem filterMap_trim (g : String → String) (msgs : List String) :
    msgs.filterMap (fun m =>
        if jsTrim m = "" then none else some (g (jsTrim m))) =
      ((msgs.map jsTrim).filter (fun s => s ≠ "")).map g := by
  induction msgs with
  | nil => rfl
  | cons m ms ih =>
    by_cases h : jsTrim m = ""
    · have hnone : (fun m =>
          if jsTrim m = "" then none else some (g (jsTrim m))) m = none := by
        show (if jsTrim m = "" then none else some (g (jsTrim m))) = none
        rw [if_pos h]
      simp only [List.filterMap_cons, hnone, List.map_cons]
      rw [List.filter_cons_of_neg (by simp [h]), ih]
    · have hsome : (fun m =>
          if jsTrim m = "" then none else some (g (jsTrim m))) m =
            some (g (jsTrim m)) := by
        show (if jsTrim m = "" then none else some (g (jsTrim m))) =
          some (g (jsTrim m))
        rw [if_neg h]
      simp only [List.filterMap_cons, hsome, List.map_cons]
      rw [List.filter_cons_of_pos (by simp [h]), List.map_cons, ih]

theorem jsEntries_of_no_index {α : Type} (m : List (String × α))
    (h : ∀ kv ∈ m, isArrayIndexKey kv.1 = none) : jsEntries m = m := by
  unfold jsEntries
  have h1 : m.filterMap
      (fun kv => (isArrayIndexKey kv.1).map (fun n => (n, kv))) = [] := by
    rw [List.filterMap_eq_nil_iff]
    intro kv hkv
    rw [h kv hkv]
    rfl
  have h2 : m.filter (fun kv => (isArrayIndexKey kv.1).isNone) = m := by
    rw [List.filter_eq_self]
    intro kv hkv
    rw [h kv hkv]
    rfl
  rw [h1, h2]
  rfl

/-- C3 (amended): the feedback list is all feature-message lines first
and story-message lines after; feature entries are enumerated in
ascending feature-index order (JS objects enumerate integer keys
numerically, not by insertion — the enumeration is the sorted
permutation of the inserted entries); story entries with ordinary
non-numeric ids keep insertion order; within an entry each message is
trimmed, whitespace-only messages are skipped, and each remaining
message yields one `Feature "name"`/`Feature n`/`Story id: title`/
`Story id` labelled line in append order. -/
theorem buildFeedback_amended (fm : List (Nat × List String))
    (sm : List (String × List String)) (features : List Feature)
    (stories : List UserStory)
    (hsm : ∀ kv ∈ sm, isArrayIndexKey kv.1 = none) :
    buildFeedback fm sm features stories =
      (sortByKey fm).flatMap (featureEntryLines features) ++
        sm.flatMap (storyEntryLines stories) ∧
    List.Perm (sortByKey fm) fm ∧
    (sortByKey fm).Pairwise (fun a b => a.1 ≤ b.1) := by
  refine ⟨?_, sortByKey_perm fm, sortByKey_sorted fm⟩
  have hfeat : (fun p : Nat × List String => p.2.filterMap (fun message =>
      let trimmed := jsTrim message
      if trimmed = "" then none
      else some (featureLabel features p.1 ++ ": " ++ trimmed))) =
      featureEntryLines features := by
    funext p
    exact filterMap_trim (fun t => featureLabel features p.1 ++ ": " ++ t) p.2
  have hstory : (fun p : String × List String => p.2.filterMap (fun message =>
      let trimmed := jsTrim message
      if trimmed = "" then none
      else some (storyLabel stories p.1 ++ ": " ++ trimmed))) =
      storyEntryLines stories := by
    funext p
    exact filterMap_trim (fun t => storyLabel stories p.1 ++ ": " ++ t) p.2
  unfold buildFeedback
  rw [jsEntries_of_no_index sm hsm, hfeat, hstory]

/-- C3 witness: the amended statement evaluated on one feature entry
and one story entry with a non-numeric id. -/
theorem buildFeedback_amended_witness :
    buildFeedback [(0, ["m"])] [("US-1", ["n"])] [⟨"A", "", []⟩]
        [⟨"US-1", "T", "", none⟩] =
      (sortByKey [(0, ["m"])]).flatMap (featureEntryLines [⟨"A", "", []⟩]) ++
        [("US-1", ["n"])].flatMap (storyEntryLines [⟨"US-1", "T", "", none⟩]) ∧
    List.Perm (sortByKey [(0, ["m"])]) [(0, ["m"])] ∧
    (sortByKey [(0, ["m"])]).Pairwise (fun a b => a.1 ≤ b.1) :=
  buildFeedback_amended [(0, ["m"])] [("US-1", ["n"])] [⟨"A", "", []⟩]
    [⟨"US-1", "T", "", none⟩] (by decide)

/-- C3 counterexample: the claim as frozen fails on the code twice.
(1) Inserting feedback for feature index 1 before feature index 0
yields lines in ascending index order, not insertion order.  (2) A
whitespace-only message produces no line at all (and messages are
trimmed), while the claim puts every message on its own line
verbatim.  `buildFeedbackClaim` is the claim's own rendering rule. -/
theorem buildFeedback_claim_counterexample :
    buildFeedback [(1, ["second"]), (0, ["first"])] []
        [⟨"A", "", []⟩, ⟨"B", "", []⟩] [] =
      ["Feature \"A\": first", "Feature \"B\": second"] ∧
    buildFeedbackClaim [(1, ["second"]), (0, ["first"])] []
        [⟨"A", "", []⟩, ⟨"B", "", []⟩] [] =
      ["Feature \"B\": second", "Feature \"A\": first"] ∧
    (["Feature \"A\": first", "Feature \"B\": second"] : List String) ≠
      ["Feature \"B\": second", "Feature \"A\": first"] ∧
    buildFeedback [(0, [" "])] [] [⟨"A", "", []⟩] [] = [] ∧
    buildFeedbackClaim [(0, [" "])] [] [⟨"A", "", []⟩] [] =
      ["Feature \"A\":  "] :=
  ⟨by decide, by decide, by decide, by decide, by decide⟩

end BriefKit
